import Mathlib

/-!
Verification of the magnificiation job-scraping core against its
natural-language specification.

The Python modules under `utils/backend/scrapers` are shallowly embedded:
dictionaries become structures (`none` models an absent key), Python string
operations become executable functions on `String`/`List Char` (ASCII-level
model of `str.lower`/`str.strip`), fallible calls become `Except String`,
and the database becomes an association list threaded explicitly.
-/

/-! ### Python string primitives -/

/-- Model of Python `str.lower` (ASCII case folding, as `Char.toLower`). -/
def pyLower (s : String) : String := ⟨s.data.map Char.toLower⟩

/-- Whitespace test used by Python `str.strip`. -/
def pySpace (c : Char) : Bool := c = ' ' ∨ c = '\t' ∨ c = '\n' ∨ c = '\r'

/-- Model of Python `str.strip`: drop whitespace from both ends. -/
def pyStrip (s : String) : String :=
  ⟨((s.data.dropWhile pySpace).reverse.dropWhile pySpace).reverse⟩

/-- Model of the Python substring test `pat in hay`. -/
def pyIn (pat hay : String) : Bool := decide (pat.data <:+: hay.data)

/-- Python truthiness of a string: nonempty. -/
def pyTruthy (s : String) : Bool := s ≠ ""

/-- `str(job.get(field, ''))` for an optional string field: an absent key
yields the empty string. -/
def getStr (o : Option String) : String := o.getD ""

/-! ### Filter engine (`job_filter.py`)

A configured pattern list is heterogeneous in Python: its elements are
strings or lists of strings.  `PatElem` embeds exactly those two cases. -/

/-- One element of a `job_titles` / `description_keywords` config list. -/
inductive PatElem where
  | s (x : String)
  | l (xs : List String)
deriving DecidableEq, Repr

/-- The single-quote character, used by Python `repr` of a string. -/
def pyQuoteChar : Char := Char.ofNat 39

/-- Python `str` of a list of plain strings: `['a', 'b']`
(elements without special characters, so `repr` is quote-wrap). -/
def pyStrOfList (xs : List String) : String :=
  "[" ++ String.intercalate ", "
    (xs.map fun x => String.singleton pyQuoteChar ++ x ++ String.singleton pyQuoteChar)
  ++ "]"

/-- Python `str(pattern)` for a config-list element. -/
def pyStrPat : PatElem → String
  | .s x => x
  | .l xs => pyStrOfList xs

/-- Python truthiness of a config-list element (`if not group`). -/
def patTruthy : PatElem → Bool
  | .s x => x ≠ ""
  | .l xs => xs ≠ []

/-- Iterating a config-list element (`for pattern in group`): a list yields
its elements, a string yields its characters (as one-char strings). -/
def patIter : PatElem → List String
  | .s x => x.data.map String.singleton
  | .l xs => xs

/-- The fields of a job dictionary read by the filter engine. -/
structure JobView where
  title : String := ""
  description : String := ""
deriving DecidableEq, Repr

/-- Embedding of `apply_title_filter` (job_filter.py:49-91): nested vs flat
is decided by the first element; in a group, any pattern matching (as a
lowercased substring) satisfies the group; all groups must be satisfied. -/
def apply_title_filter (job : JobView) (allowed_titles : List PatElem) : Bool :=
  if allowed_titles.isEmpty then true
  else
    let job_title := pyLower job.title
    let is_nested : Bool :=
      match allowed_titles.head? with
      | some (.l _) => true
      | _ => false
    if is_nested then
      allowed_titles.all fun group =>
        if !patTruthy group then true
        else (patIter group).any fun pattern => pyIn (pyLower pattern) job_title
    else
      -- flat: the whole list is the single group (nonempty here),
      -- each element passed through `str(pattern)`
      allowed_titles.any fun pattern => pyIn (pyLower (pyStrPat pattern)) job_title

/-- Embedding of `apply_keyword_filter` (job_filter.py:94-127): same logic
over the lowercased description. -/
def apply_keyword_filter (job : JobView) (keywords : List PatElem) : Bool :=
  if keywords.isEmpty then true
  else
    let description := pyLower job.description
    let is_nested : Bool :=
      match keywords.head? with
      | some (.l _) => true
      | _ => false
    if is_nested then
      keywords.all fun group =>
        if !patTruthy group then true
        else (patIter group).any fun keyword => pyIn (pyLower keyword) description
    else
      keywords.any fun keyword => pyIn (pyLower (pyStrPat keyword)) description

/-- The filter configuration dictionary (`job_titles`, `description_keywords`). -/
structure FilterCfg where
  job_titles : List PatElem := []
  description_keywords : List PatElem := []
deriving DecidableEq, Repr

/-- Embedding of `apply_filters` (job_filter.py:130-159). -/
def apply_filters (job : JobView) (filter_config : FilterCfg) : Bool :=
  let allowed_titles := filter_config.job_titles
  let keywords := filter_config.description_keywords
  if allowed_titles.isEmpty && keywords.isEmpty then true
  else if !allowed_titles.isEmpty && !apply_title_filter job allowed_titles then false
  else if !keywords.isEmpty && !apply_keyword_filter job keywords then false
  else true

/-! ### Data processor (`data_processor.py`)

A raw scraped job dictionary.  `none` models an absent key; amounts are
modelled as optional integers (the dominant case; `float` conversion of an
integer never raises, and `:,.0f` formatting of an integer is exact). -/

/-- Raw job dictionary as produced by a scrape. -/
structure RawJob where
  title : Option String := none
  company : Option String := none
  location : Option String := none
  link : Option String := none
  description : Option String := none
  compensation : Option String := none
  site : Option String := none
  search_term : Option String := none
  job_url : Option String := none
  min_amount : Option Int := none
  max_amount : Option Int := none
  currency : Option String := none
  interval : Option String := none
deriving DecidableEq, Repr

/-- The dedup key of `deduplicate_jobs`: lowercased, stripped
(title, company, location). -/
def dedupKey (job : RawJob) : String × String × String :=
  (pyLower (pyStrip (getStr job.title)),
   pyLower (pyStrip (getStr job.company)),
   pyLower (pyStrip (getStr job.location)))

/-- The `title and company` truthiness check of `deduplicate_jobs`, on the
stripped lowercased fields. -/
def dedupRequired (job : RawJob) : Bool :=
  pyTruthy (pyLower (pyStrip (getStr job.title))) &&
  pyTruthy (pyLower (pyStrip (getStr job.company)))

/-- Loop of `deduplicate_jobs` (data_processor.py:32-44) with its `seen` set. -/
def dedupGo (seen : List (String × String × String)) :
    List RawJob → List RawJob
  | [] => []
  | job :: rest =>
    let key := dedupKey job
    if key ∉ seen ∧ dedupRequired job then
      job :: dedupGo (key :: seen) rest
    else
      dedupGo seen rest

/-- Embedding of `deduplicate_jobs` (data_processor.py:18-47). -/
def deduplicate_jobs (job_list : List RawJob) : List RawJob :=
  dedupGo [] job_list

/-- Comma-group a digit list given least-significant first, counting
positions from 0. -/
def commaGroupRev : List Char → Nat → List Char
  | [], _ => []
  | c :: rest, k =>
    if (k + 1) % 3 = 0 && rest ≠ [] then c :: ',' :: commaGroupRev rest (k + 1)
    else c :: commaGroupRev rest (k + 1)

/-- Python `f"{float(n):,.0f}"` for an integer `n`: decimal digits grouped
in threes by commas (exact for integers, no rounding involved). -/
def commaFmt (n : Int) : String :=
  let digits := (Nat.toDigits 10 n.natAbs).reverse
  let body : String := ⟨(commaGroupRev digits 0).reverse⟩
  if n < 0 then "-" ++ body else body

/-- Python truthiness of an optional numeric amount: present and nonzero. -/
def amtTruthy : Option Int → Bool
  | none => false
  | some n => n ≠ 0

/-- A cleaned job dictionary: the eight string fields set by
`clean_job_data`, always present (empty string when the raw value was
absent or the compensation could not be synthesized). -/
structure CleanedJob where
  title : String := ""
  company : String := ""
  location : String := ""
  link : String := ""
  description : String := ""
  compensation : String := ""
  site : String := ""
  search_term : String := ""
deriving DecidableEq, Repr

/-- Embedding of `clean_job_data` (data_processor.py:50-97): strip the
string fields, fall back to `job_url` for an empty `link`, and synthesize
`compensation` from the amount fields when it is empty.  With integer
amounts the `float(...)` conversions never raise, so the
`except (ValueError, TypeError)` branch is dead in this model. -/
def clean_job_data (job : RawJob) : CleanedJob :=
  let cleaned : CleanedJob :=
    { title := pyStrip (getStr job.title)
      company := pyStrip (getStr job.company)
      location := pyStrip (getStr job.location)
      link := pyStrip (getStr job.link)
      description := pyStrip (getStr job.description)
      compensation := pyStrip (getStr job.compensation)
      site := pyStrip (getStr job.site)
      search_term := pyStrip (getStr job.search_term) }
  let cleaned :=
    if !pyTruthy cleaned.link && pyTruthy (getStr job.job_url) then
      { cleaned with link := pyStrip (getStr job.job_url) }
    else cleaned
  if !pyTruthy cleaned.compensation then
    let min_amount := job.min_amount
    let max_amount := job.max_amount
    let currency := job.currency.getD "$"
    let interval := job.interval.getD ""
    if amtTruthy min_amount || amtTruthy max_amount then
      let base :=
        if amtTruthy min_amount && amtTruthy max_amount then
          currency ++ commaFmt (min_amount.getD 0) ++ " - " ++
            currency ++ commaFmt (max_amount.getD 0)
        else if amtTruthy min_amount then
          currency ++ commaFmt (min_amount.getD 0)
        else
          currency ++ commaFmt (max_amount.getD 0)
      let base := if pyTruthy interval then base ++ " " ++ interval else base
      { cleaned with compensation := base }
    else cleaned
  else cleaned

/-- Embedding of `validate_job` (data_processor.py:100-117): nonempty
(and nonempty after stripping) title, company, location. -/
def validate_job (job : CleanedJob) : Bool :=
  pyTruthy job.title && pyTruthy (pyStrip job.title) &&
  pyTruthy job.company && pyTruthy (pyStrip job.company) &&
  pyTruthy job.location && pyTruthy (pyStrip job.location)

/-- A row in database format, as built by `transform_to_db_format`. -/
structure DbJob where
  title : String := ""
  company : String := ""
  location : String := ""
  link : String := ""
  description : String := ""
  compensation : String := ""
  ignore : Nat := 0
deriving DecidableEq, Repr

/-- Embedding of `transform_to_db_format` (data_processor.py:120-138). -/
def transform_to_db_format (job : CleanedJob) : DbJob :=
  { title := job.title
    company := job.company
    location := job.location
    link := job.link
    description := job.description
    compensation := job.compensation
    ignore := 0 }

/-- Embedding of `process_scraped_jobs` (data_processor.py:141-180):
deduplicate, clean, validate, transform. -/
def process_scraped_jobs (raw_jobs : List RawJob) : List DbJob :=
  ((deduplicate_jobs raw_jobs).filterMap fun job =>
    let cleaned := clean_job_data job
    if validate_job cleaned then some cleaned else none).map
    transform_to_db_format

/-! ### Per-task scraping (`jobspy_wrapper.py`)

`JobScrapeTask.run` walks the configured sites sequentially; the external
`scrape_jobs` call is abstracted as `fetch : String → Except String (List
RawJob)` (`.error` models a raised exception, `.ok []` models `None` or an
empty DataFrame).  The `site_counts` and `errors` dictionaries become
finite maps `String → Option _`. -/

/-- Dictionary update `d[k] = v`. -/
def updOpt {α : Type} (m : String → Option α) (k : String) (v : α) :
    String → Option α :=
  fun s => if s = k then some v else m s

/-- Mutable state of a `JobScrapeTask`. -/
structure TaskState where
  jobs_data : List RawJob := []
  site_counts : String → Option Nat := fun _ => none
  errors : String → Option String := fun _ => none

/-- Loop body of `JobScrapeTask.run` (jobspy_wrapper.py:57-94): per-site
try/except; an exception records an error and a zero count and moves on. -/
def taskRunGo (job_title : String)
    (fetch : String → Except String (List RawJob)) :
    List String → TaskState → TaskState
  | [], st => st
  | site :: rest, st =>
    match fetch site with
    | .ok recs =>
      if recs.isEmpty then
        taskRunGo job_title fetch rest
          { st with site_counts := updOpt st.site_counts site 0 }
      else
        let records := recs.map fun r => { r with search_term := some job_title }
        taskRunGo job_title fetch rest
          { st with
            jobs_data := st.jobs_data ++ records
            site_counts := updOpt st.site_counts site records.length }
    | .error e =>
      taskRunGo job_title fetch rest
        { st with
          site_counts := updOpt st.site_counts site 0
          errors := updOpt st.errors site e }

/-- Embedding of `JobScrapeTask.run` (jobspy_wrapper.py:48-97). -/
def jobScrapeTaskRun (job_title : String) (sites : List String)
    (fetch : String → Except String (List RawJob)) : TaskState :=
  taskRunGo job_title fetch sites {}

/-! ### Concurrent pool (`concurrent_scraper.py`)

`JobSpyScraper.run` submits one future per task and collects them with
`as_completed`.  The completion order is modelled as a list of task
indices; each task's execution outcome is an `Except` value (`.error`
models `future.result()` raising). -/

/-- The observable outcome of one completed task. -/
structure TaskDone where
  job_title : String := ""
  jobs_data : List RawJob := []
deriving DecidableEq, Repr

/-- Collection loop of `JobSpyScraper.run` (concurrent_scraper.py:124-132):
per-future try/except; a failed task is logged and contributes nothing,
a completed task is appended and its jobs extended into `all_jobs`. -/
def poolCollect (outcomes : List (Except String TaskDone)) :
    List Nat → List TaskDone × List RawJob → List TaskDone × List RawJob
  | [], acc => acc
  | i :: rest, (completed_tasks, all_jobs) =>
    match outcomes.get? i with
    | some (.ok t) =>
      poolCollect outcomes rest (completed_tasks ++ [t], all_jobs ++ t.jobs_data)
    | _ =>
      poolCollect outcomes rest (completed_tasks, all_jobs)

/-- Embedding of `JobSpyScraper.run` (concurrent_scraper.py:104-135):
`outcomes` gives each submitted task's execution result, `order` the
non-deterministic completion order; returns (`completed_tasks`, `all_jobs`). -/
def jobSpyScraperRun (outcomes : List (Except String TaskDone))
    (order : List Nat) : List TaskDone × List RawJob :=
  poolCollect outcomes order ([], [])

/-! ### Database rows and `filter_and_mark_jobs`

A persisted job row (`models.Job`); timestamps are not modelled.  The
database is the list of rows in table order. -/

/-- A persisted job row. -/
structure DbRow where
  id : Nat := 0
  title : String := ""
  company : String := ""
  location : String := ""
  link : String := ""
  description : String := ""
  compensation : String := ""
  ignore : Nat := 0
deriving DecidableEq, Repr

/-- The fields of a row the filter engine reads. -/
def rowView (r : DbRow) : JobView :=
  { title := r.title, description := r.description }

/-- Embedding of `get_jobs_by_ids` (operations.py:219-231): rows whose id
is in the list, in table order. -/
def get_jobs_by_ids (job_ids : List Nat) (db : List DbRow) : List DbRow :=
  db.filter fun r => r.id ∈ job_ids

/-- Embedding of `set_job_ignore` / `update_job` (operations.py:110-132,
205-216): update the first row with the given id. -/
def set_job_ignore : List DbRow → Nat → Nat → List DbRow
  | [], _, _ => []
  | r :: rest, job_id, v =>
    if r.id = job_id then { r with ignore := v } :: rest
    else r :: set_job_ignore rest job_id v

/-- Loop of `filter_and_mark_jobs` (job_filter.py:213-219) over the
snapshot of retrieved jobs, threading the database and the kept/ignored
counters. -/
def markLoop (cfg : FilterCfg) :
    List DbRow → List DbRow × Nat × Nat → List DbRow × Nat × Nat
  | [], acc => acc
  | job :: rest, (db, kept, ignored) =>
    if apply_filters (rowView job) cfg then
      markLoop cfg rest (db, kept + 1, ignored)
    else
      markLoop cfg rest (set_job_ignore db job.id 1, kept, ignored + 1)

/-- Embedding of `filter_and_mark_jobs` (job_filter.py:189-228); the filter
config is a parameter (the Python loads it from file).  Returns the updated
database and the (kept, ignored) counts. -/
def filter_and_mark_jobs (cfg : FilterCfg) (job_ids : List Nat)
    (db : List DbRow) : List DbRow × Nat × Nat :=
  markLoop cfg (get_jobs_by_ids job_ids db) (db, 0, 0)

/-- The fields of a processed (database-format) job the filter reads. -/
def dbJobView (j : DbJob) : JobView :=
  { title := j.title, description := j.description }

/-- Embedding of `filter_jobs` (job_filter.py:162-186): partition into
(kept, ignored) without mutating the inputs. -/
def filter_jobs (cfg : FilterCfg) (jobs : List DbJob) :
    List DbJob × List DbJob :=
  (jobs.filter fun j => apply_filters (dbJobView j) cfg,
   jobs.filter fun j => !apply_filters (dbJobView j) cfg)

/-! ### Workflow orchestrator (`scraping_service.py`)

`execute_full_scraping_workflow` wraps its five stages in one try/except.
External collaborators (config file, scraper threads, database, the
filter-and-mark pass over the database) are abstracted as an environment
of `Except`-valued calls; `.error` models a raised exception.  The
workflow body is written as `Except (String × WorkflowResults)
WorkflowResults`: a `.error (e, r)` is an exception `e` escaping the try
block with the results accumulated so far `r`, which the handler converts
into a returned result.  Step payloads are abstracted to the list of step
names recorded; `results_wanted`/`hours_old` are opaque pass-through
parameters and are not modelled. -/

/-- `SUPPORTED_SITES` (scraper_config.py). -/
def SUPPORTED_SITES : List String :=
  ["indeed", "linkedin", "glassdoor", "zip_recruiter", "google"]

/-- The orchestrator's result dictionary. -/
structure WorkflowResults where
  success : Bool := false
  steps : List String := []
  errors : List String := []
deriving DecidableEq, Repr

/-- External collaborators of the orchestrator. -/
structure WorkflowEnv where
  /-- `load_jobs_config()['job_titles']` (may raise). -/
  load_jobs_config : Except String (List String)
  /-- `JobSpyScraper(...).run()` then `.all_jobs` (may raise). -/
  scraper_run : List String → List String → Except String (List RawJob)
  /-- `get_job_by_criteria(title, company, location)` (may raise). -/
  get_job_by_criteria : String → String → String → Except String (Option Nat)
  /-- `add_job(job_data)` (may raise; caught per record). -/
  add_job : DbJob → Except String Nat
  /-- `filter_and_mark_jobs(job_ids)` against the database (may raise);
  returns (kept, ignored). -/
  filter_and_mark : List Nat → Except String (Nat × Nat)
  /-- `load_filter_config()` for the in-memory filtering path (may raise). -/
  load_filter_config : Except String FilterCfg

/-- Storage loop of the workflow (scraping_service.py:137-155): duplicate
check first (uncaught), then `add_job` in a per-record try/except whose
failure appends a `Store error:` message and continues. -/
def storeLoop (env : WorkflowEnv) :
    List DbJob → List Nat → WorkflowResults →
    Except (String × WorkflowResults) (List Nat × WorkflowResults)
  | [], job_ids, results => .ok (job_ids, results)
  | job_data :: rest, job_ids, results =>
    match env.get_job_by_criteria job_data.title job_data.company job_data.location with
    | .error e => .error (e, results)
    | .ok (some _) => storeLoop env rest job_ids results
    | .ok none =>
      match env.add_job job_data with
      | .ok job_id => storeLoop env rest (job_ids ++ [job_id]) results
      | .error e =>
        storeLoop env rest job_ids
          { results with errors := results.errors ++ ["Store error: " ++ e] }

/-- Filtering stage of the try-block (scraping_service.py:168-182): with
stored ids, `filter_and_mark_jobs` against the database (may raise);
otherwise load the filter config (may raise) and partition in memory;
then record the step and set `success := true` (scraping_service.py:184). -/
def workflowFilterStage (env : WorkflowEnv) (processed_jobs : List DbJob)
    (job_ids : List Nat) (results : WorkflowResults) :
    Except (String × WorkflowResults) WorkflowResults :=
  if job_ids.isEmpty then
    match env.load_filter_config with
    | .error e => .error (e, results)
    | .ok cfg =>
      let _fr := filter_jobs cfg processed_jobs
      .ok { results with steps := results.steps ++ ["filtering"],
                         success := true }
  else
    match env.filter_and_mark job_ids with
    | .error e => .error (e, results)
    | .ok _counts =>
      .ok { results with steps := results.steps ++ ["filtering"],
                         success := true }

/-- Storage stage of the try-block (scraping_service.py:129-166): the
per-record store loop when saving is enabled, empty ids otherwise; then
the filtering stage. -/
def workflowStoreStage (env : WorkflowEnv) (processed_jobs : List DbJob)
    (results : WorkflowResults) (save_to_database : Bool) :
    Except (String × WorkflowResults) WorkflowResults :=
  if save_to_database then
    match storeLoop env processed_jobs [] results with
    | .error (e, r) => .error (e, r)
    | .ok (job_ids, results2) =>
      workflowFilterStage env processed_jobs job_ids
        { results2 with steps := results2.steps ++ ["storage"] }
  else
    workflowFilterStage env processed_jobs []
      { results with steps := results.steps ++ ["storage"] }

/-- Scraping and processing stages of the try-block
(scraping_service.py:92-126): run the scraper (an exception propagates
with the results so far), return early with `success := true` when no raw
jobs, otherwise process and continue with storage. -/
def workflowScrapeStage (env : WorkflowEnv) (job_titles sites : List String)
    (results : WorkflowResults) (save_to_database : Bool) :
    Except (String × WorkflowResults) WorkflowResults :=
  match env.scraper_run job_titles sites with
  | .error e => .error (e, results)
  | .ok raw_jobs =>
    if raw_jobs.isEmpty then
      .ok { results with steps := results.steps ++ ["scraping"],
                         success := true }
    else
      workflowStoreStage env (process_scraped_jobs raw_jobs)
        { results with steps := results.steps ++ ["scraping", "processing"] }
        save_to_database

/-- The try-block of `execute_full_scraping_workflow`
(scraping_service.py:67-188): configuration loading and the empty-titles
short circuit, then the remaining stages. -/
def workflowTry (env : WorkflowEnv) (job_titles0 sites0 : Option (List String))
    (save_to_database : Bool) :
    Except (String × WorkflowResults) WorkflowResults :=
  let results : WorkflowResults := {}
  match (match job_titles0 with
         | some ts => Except.ok ts
         | none => env.load_jobs_config) with
  | .error e => .error (e, results)
  | .ok job_titles =>
    if job_titles.isEmpty then
      .ok { results with errors := results.errors ++ ["No job titles provided"] }
    else
      workflowScrapeStage env job_titles (sites0.getD SUPPORTED_SITES)
        { results with steps := results.steps ++ ["config"] }
        save_to_database

/-- Embedding of `execute_full_scraping_workflow`
(scraping_service.py:29-194): run the try-block; an escaping exception is
caught, its message appended to the error list, and the accumulated
results returned. -/
def execute_full_scraping_workflow (env : WorkflowEnv)
    (job_titles0 sites0 : Option (List String)) (save_to_database : Bool) :
    WorkflowResults :=
  match workflowTry env job_titles0 sites0 save_to_database with
  | .ok results => results
  | .error (e, results) => { results with errors := results.errors ++ [e] }

/-! ## Specification-side definitions and theorems -/

/-! ### Filter group semantics (C1, C10) -/

/-- Claim-side semantics: every non-empty group has some pattern occurring
as a case-insensitive substring of the haystack. -/
def groupsSat (hay : String) (groups : List (List String)) : Prop :=
  ∀ g ∈ groups, g ≠ [] → ∃ p ∈ g, pyIn (pyLower p) (pyLower hay) = true

instance (hay : String) (groups : List (List String)) :
    Decidable (groupsSat hay groups) :=
  inferInstanceAs (Decidable (∀ g ∈ groups, g ≠ [] →
    ∃ p ∈ g, pyIn (pyLower p) (pyLower hay) = true))

/-- A flat config list of plain strings. -/
def encodeFlat (g : List String) : List PatElem := g.map .s

/-- A nested config list of groups. -/
def encodeNested (groups : List (List String)) : List PatElem := groups.map .l

/-- A config list together with the group list it denotes per the claim:
a flat list of strings is a single group, a list of lists is the groups. -/
def ListForm (l : List PatElem) (groups : List (List String)) : Prop :=
  (∃ g, l = encodeFlat g ∧ groups = [g]) ∨ l = encodeNested groups

theorem apply_keyword_filter_eq_title (job : JobView) (l : List PatElem) :
    apply_keyword_filter job l =
      apply_title_filter { title := job.description } l := rfl

theorem apply_title_filter_nested (job : JobView) (groups : List (List String)) :
    apply_title_filter job (encodeNested groups) = true ↔
      groupsSat job.title groups := by
  cases groups with
  | nil => simp [apply_title_filter, encodeNested, groupsSat]
  | cons g0 gs =>
    simp [apply_title_filter, encodeNested, groupsSat, patTruthy, patIter,
      List.all_eq_true, List.any_eq_true]
    exact and_congr or_iff_not_imp_left
      (forall₂_congr fun a ha => or_iff_not_imp_left)

theorem apply_title_filter_flat (job : JobView) (g : List String) (hg : g ≠ []) :
    apply_title_filter job (encodeFlat g) = true ↔
      ∃ p ∈ g, pyIn (pyLower p) (pyLower job.title) = true := by
  cases g with
  | nil => exact absurd rfl hg
  | cons p0 ps =>
    simp [apply_title_filter, encodeFlat, pyStrPat, List.any_eq_true]

theorem apply_filters_eq (job : JobView) (cfg : FilterCfg) :
    apply_filters job cfg =
      (apply_title_filter job cfg.job_titles &&
       apply_keyword_filter job cfg.description_keywords) := by
  unfold apply_filters
  cases hT : cfg.job_titles with
  | nil => cases hK : cfg.description_keywords with
    | nil => simp [apply_title_filter, apply_keyword_filter]
    | cons k ks =>
      cases h2 : apply_keyword_filter job (k :: ks) <;>
        simp [apply_title_filter, h2]
  | cons t ts => cases hK : cfg.description_keywords with
    | nil =>
      cases h1 : apply_title_filter job (t :: ts) <;>
        simp [apply_keyword_filter, h1]
    | cons k ks =>
      cases h1 : apply_title_filter job (t :: ts) <;>
        cases h2 : apply_keyword_filter job (k :: ks) <;> simp [h1, h2]

theorem title_filter_listform (job : JobView) (l : List PatElem)
    (groups : List (List String)) (h : ListForm l groups) :
    apply_title_filter job l = true ↔ groupsSat job.title groups := by
  rcases h with ⟨g, rfl, rfl⟩ | rfl
  · cases g with
    | nil => simp [apply_title_filter, encodeFlat, groupsSat]
    | cons p ps =>
      rw [apply_title_filter_flat _ _ (by simp)]
      simp [groupsSat]
  · exact apply_title_filter_nested job groups

/-- C1: for every record and well-formed filter config (each top-level
list either a flat list of strings — one group — or a list of groups),
`apply_filters` keeps the record iff every non-empty title group has some
pattern occurring case-insensitively in the title and every non-empty
keyword group has some pattern occurring case-insensitively in the
description; empty groups and empty top-level lists impose no constraint. -/
theorem apply_filters_group_semantics (job : JobView)
    (tl kl : List PatElem) (tGroups kGroups : List (List String))
    (ht : ListForm tl tGroups) (hk : ListForm kl kGroups) :
    apply_filters job { job_titles := tl, description_keywords := kl } = true ↔
      groupsSat job.title tGroups ∧ groupsSat job.description kGroups := by
  have hkw : apply_keyword_filter job kl = true ↔
      groupsSat job.description kGroups := by
    rw [apply_keyword_filter_eq_title]
    exact title_filter_listform _ kl kGroups hk
  rw [apply_filters_eq, Bool.and_eq_true]
  exact and_congr (title_filter_listform job tl tGroups ht) hkw

/-- Witness for C1 at the spec's own example: title groups
`[["engineer","developer"], ["senior"]]`, record titled
"Senior Software Engineer" is kept. -/
theorem apply_filters_group_semantics_witness :
    (apply_filters { title := "Senior Software Engineer" }
        { job_titles := [.l ["engineer", "developer"], .l ["senior"]],
          description_keywords := [] } = true ↔
      groupsSat "Senior Software Engineer" [["engineer", "developer"], ["senior"]] ∧
        groupsSat "" []) ∧
    apply_filters { title := "Senior Software Engineer" }
        { job_titles := [.l ["engineer", "developer"], .l ["senior"]],
          description_keywords := [] } = true :=
  ⟨apply_filters_group_semantics _ _ _ _ _ (Or.inr rfl) (Or.inr rfl), by decide⟩

/-- C10: a config list whose first element is a string is treated as one
flat OR-group — every element, including later inner lists, is a pattern
(`str`-converted) — by both the title and the keyword filter; concretely,
`["alpha", ["beta","gamma"]]` keeps the title "senior alpha dev" even
though the AND-of-OR-groups reading would reject it. -/
theorem flat_detection_by_first_element (job : JobView) (x0 : String)
    (rest : List PatElem) :
    (apply_title_filter job (.s x0 :: rest) =
      (PatElem.s x0 :: rest).any fun p =>
        pyIn (pyLower (pyStrPat p)) (pyLower job.title)) ∧
    (apply_keyword_filter job (.s x0 :: rest) =
      (PatElem.s x0 :: rest).any fun p =>
        pyIn (pyLower (pyStrPat p)) (pyLower job.description)) ∧
    apply_title_filter { title := "senior alpha dev" }
      [.s "alpha", .l ["beta", "gamma"]] = true ∧
    ¬ groupsSat "senior alpha dev" [["alpha"], ["beta", "gamma"]] :=
  ⟨rfl, rfl, by decide, by decide⟩

/-! ### Deduplication (C2, C8) -/

/-- The dedup validity check depends only on the dedup key. -/
theorem dedupRequired_of_key {x y : RawJob} (h : dedupKey x = dedupKey y) :
    dedupRequired x = dedupRequired y := by
  have h1 : (dedupKey x).1 = (dedupKey y).1 := by rw [h]
  have h2 : (dedupKey x).2.1 = (dedupKey y).2.1 := by rw [h]
  simp only [dedupKey] at h1 h2
  simp only [dedupRequired, h1, h2]

/-- Claim-side deduplication, indexed from the front of the original list:
keep an element iff its stripped title and company are nonempty and no
strictly earlier element of the list has the same key. -/
def dedupSpecGo (l : List RawJob) : Nat → List RawJob → List RawJob
  | _, [] => []
  | i, j :: rest =>
    if dedupRequired j = true ∧ ∀ x ∈ l.take i, dedupKey x ≠ dedupKey j then
      j :: dedupSpecGo l (i + 1) rest
    else
      dedupSpecGo l (i + 1) rest

/-- Claim-side deduplication of a whole list. -/
def dedupSpec (l : List RawJob) : List RawJob := dedupSpecGo l 0 l

theorem dedupGo_eq_spec (rest : List RawJob) :
    ∀ (pre : List RawJob) (seen : List (String × String × String)),
      (∀ k, k ∈ seen ↔ ∃ x ∈ pre, dedupKey x = k ∧ dedupRequired x = true) →
      dedupGo seen rest = dedupSpecGo (pre ++ rest) pre.length rest := by
  induction rest with
  | nil => intro pre seen hinv; rfl
  | cons j rest ih =>
    intro pre seen hinv
    have htake : (pre ++ j :: rest).take pre.length = pre := by
      simp [List.take_left]
    have hcond : (dedupKey j ∉ seen ∧ dedupRequired j = true) ↔
        (dedupRequired j = true ∧
          ∀ x ∈ (pre ++ j :: rest).take pre.length, dedupKey x ≠ dedupKey j) := by
      rw [htake]
      constructor
      · rintro ⟨hns, hreq⟩
        refine ⟨hreq, fun x hx hkey => hns ?_⟩
        exact (hinv (dedupKey j)).mpr
          ⟨x, hx, hkey, by rw [dedupRequired_of_key hkey, hreq]⟩
      · rintro ⟨hreq, hall⟩
        refine ⟨fun hs => ?_, hreq⟩
        obtain ⟨x, hx, hkey, _⟩ := (hinv (dedupKey j)).mp hs
        exact hall x hx hkey
    show (if dedupKey j ∉ seen ∧ dedupRequired j then
            j :: dedupGo (dedupKey j :: seen) rest
          else dedupGo seen rest) = _
    by_cases h : dedupKey j ∉ seen ∧ dedupRequired j = true
    · rw [if_pos h, dedupSpecGo, if_pos (hcond.mp h)]
      have ihstep := ih (pre ++ [j]) (dedupKey j :: seen) (fun k => by
        constructor
        · intro hk
          rcases List.mem_cons.mp hk with rfl | hk
          · exact ⟨j, by simp, rfl, h.2⟩
          · obtain ⟨x, hx, hkx, hrx⟩ := (hinv k).mp hk
            exact ⟨x, by simp [hx], hkx, hrx⟩
        · rintro ⟨x, hx, hkx, hrx⟩
          rcases List.mem_append.mp hx with hx | hx
          · exact List.mem_cons_of_mem _ ((hinv k).mpr ⟨x, hx, hkx, hrx⟩)
          · simp only [List.mem_singleton] at hx
            subst hx; subst hkx
            exact List.mem_cons_self _ _)
      have hl : (pre ++ [j]) ++ rest = pre ++ j :: rest := by
        rw [List.append_assoc, List.singleton_append]
      have hn : (pre ++ [j]).length = pre.length + 1 := by simp
      rw [hl, hn] at ihstep
      exact congrArg (List.cons j) ihstep
    · rw [if_neg h, dedupSpecGo, if_neg (fun hc => h (hcond.mpr hc))]
      have ihstep := ih (pre ++ [j]) seen (fun k => by
        rw [hinv k]
        constructor
        · rintro ⟨x, hx, hkx, hrx⟩
          exact ⟨x, by simp [hx], hkx, hrx⟩
        · rintro ⟨x, hx, hkx, hrx⟩
          rcases List.mem_append.mp hx with hx | hx
          · exact ⟨x, hx, hkx, hrx⟩
          · simp only [List.mem_singleton] at hx
            subst hx
            rcases not_and_or.mp h with hns | hnr
            · rw [not_not] at hns
              subst hkx
              exact (hinv (dedupKey x)).mp hns
            · exact absurd hrx hnr)
      have hl : (pre ++ [j]) ++ rest = pre ++ j :: rest := by
        rw [List.append_assoc, List.singleton_append]
      have hn : (pre ++ [j]).length = pre.length + 1 := by simp
      rw [hl, hn] at ihstep
      exact ihstep

/-- C2: `deduplicate_jobs` keeps exactly the postings with nonempty
stripped title and company whose (lowercased, stripped) title/company/
location key does not occur at any earlier index, in input order: the
earlier-indexed posting is the unique survivor of each key. -/
theorem deduplicate_jobs_first_occurrence (l : List RawJob) :
    deduplicate_jobs l = dedupSpec l := by
  have h := dedupGo_eq_spec l [] [] (fun k => by simp)
  simpa [deduplicate_jobs, dedupSpec] using h

theorem mem_dedupGo_required {seen : List (String × String × String)}
    {l : List RawJob} {j : RawJob} (h : j ∈ dedupGo seen l) :
    dedupRequired j = true := by
  induction l generalizing seen with
  | nil => simp [dedupGo] at h
  | cons x rest ih =>
    by_cases hc : dedupKey x ∉ seen ∧ dedupRequired x = true
    · rw [show dedupGo seen (x :: rest) =
          x :: dedupGo (dedupKey x :: seen) rest from by
            simp only [dedupGo, if_pos hc]] at h
      rcases List.mem_cons.mp h with rfl | h
      · exact hc.2
      · exact ih h
    · rw [show dedupGo seen (x :: rest) = dedupGo seen rest from by
            simp only [dedupGo, if_neg hc]] at h
      exact ih h

theorem mem_dedupGo_fresh {seen : List (String × String × String)}
    {l : List RawJob} {j : RawJob} (h : j ∈ dedupGo seen l) :
    dedupKey j ∉ seen := by
  induction l generalizing seen with
  | nil => simp [dedupGo] at h
  | cons x rest ih =>
    by_cases hc : dedupKey x ∉ seen ∧ dedupRequired x = true
    · rw [show dedupGo seen (x :: rest) =
          x :: dedupGo (dedupKey x :: seen) rest from by
            simp only [dedupGo, if_pos hc]] at h
      rcases List.mem_cons.mp h with rfl | h
      · exact hc.1
      · exact fun hs => ih h (List.mem_cons_of_mem _ hs)
    · rw [show dedupGo seen (x :: rest) = dedupGo seen rest from by
            simp only [dedupGo, if_neg hc]] at h
      exact ih h

theorem dedupGo_pairwise (seen : List (String × String × String))
    (l : List RawJob) :
    (dedupGo seen l).Pairwise fun a b => dedupKey a ≠ dedupKey b := by
  induction l generalizing seen with
  | nil => simp [dedupGo]
  | cons x rest ih =>
    by_cases hc : dedupKey x ∉ seen ∧ dedupRequired x = true
    · rw [show dedupGo seen (x :: rest) =
          x :: dedupGo (dedupKey x :: seen) rest from by
            simp only [dedupGo, if_pos hc]]
      refine List.Pairwise.cons (fun b hb hkey => ?_) (ih _)
      exact mem_dedupGo_fresh hb (hkey ▸ List.mem_cons_self _ _)
    · rw [show dedupGo seen (x :: rest) = dedupGo seen rest from by
            simp only [dedupGo, if_neg hc]]
      exact ih _

theorem dedupGo_of_clean (l : List RawJob) :
    ∀ seen, (∀ j ∈ l, dedupRequired j = true) →
      l.Pairwise (fun a b => dedupKey a ≠ dedupKey b) →
      (∀ j ∈ l, dedupKey j ∉ seen) →
      dedupGo seen l = l := by
  induction l with
  | nil => intro seen _ _ _; rfl
  | cons x rest ih =>
    intro seen hreq hpw hfresh
    have hc : dedupKey x ∉ seen ∧ dedupRequired x = true :=
      ⟨hfresh x (List.mem_cons_self _ _), hreq x (List.mem_cons_self _ _)⟩
    rw [show dedupGo seen (x :: rest) =
          x :: dedupGo (dedupKey x :: seen) rest from by
        simp only [dedupGo, if_pos hc]]
    refine congrArg (List.cons x) (ih _ ?_ (List.Pairwise.of_cons hpw) ?_)
    · exact fun j hj => hreq j (List.mem_cons_of_mem _ hj)
    · intro j hj hs
      rcases List.mem_cons.mp hs with hkey | hs
      · exact (List.rel_of_pairwise_cons hpw hj) hkey.symm
      · exact hfresh j (List.mem_cons_of_mem _ hj) hs

/-- C8: deduplication is idempotent. -/
theorem deduplicate_jobs_idempotent (l : List RawJob) :
    deduplicate_jobs (deduplicate_jobs l) = deduplicate_jobs l :=
  dedupGo_of_clean _ [] (fun _ hj => mem_dedupGo_required hj)
    (dedupGo_pairwise [] l) (fun _ _ h => List.not_mem_nil _ h)

/-! ### Compensation synthesis (C4) -/

/-- Claim-side synthesized compensation, amended for Python truthiness:
an amount that is absent or zero imposes nothing; both bounds give the
range form, exactly one gives the single-bound form, none leaves the
field empty; a nonempty interval is appended. -/
def compSynthSpec (job : RawJob) : String :=
  let currency := job.currency.getD "$"
  let interval := job.interval.getD ""
  let suffix := if pyTruthy interval then " " ++ interval else ""
  if amtTruthy job.min_amount && amtTruthy job.max_amount then
    currency ++ commaFmt (job.min_amount.getD 0) ++ " - " ++
      currency ++ commaFmt (job.max_amount.getD 0) ++ suffix
  else if amtTruthy job.min_amount then
    currency ++ commaFmt (job.min_amount.getD 0) ++ suffix
  else if amtTruthy job.max_amount then
    currency ++ commaFmt (job.max_amount.getD 0) ++ suffix
  else ""

/-- C4 (amended): when no pre-existing compensation string survives
stripping, `clean_job_data` fills the compensation field exactly as
`compSynthSpec` describes. -/
theorem clean_job_data_compensation (job : RawJob)
    (h : pyStrip (getStr job.compensation) = "") :
    (clean_job_data job).compensation = compSynthSpec job := by
  unfold clean_job_data compSynthSpec
  by_cases hl : !pyTruthy (pyStrip (getStr job.link)) && pyTruthy (getStr job.job_url)
  all_goals
    simp only [hl, if_true, if_false, Bool.false_eq_true, h]
  all_goals
    by_cases hmin : amtTruthy job.min_amount
  all_goals
    by_cases hmax : amtTruthy job.max_amount
  all_goals
    simp [hmin, hmax, pyTruthy]
  all_goals
    by_cases hint : job.interval.getD "" = "" <;>
      simp [hint, String.append_empty, String.append_assoc]

/-- C4 counterexample: `min_amount = 0` is present (and numeric) with no
other bound, yet the code synthesizes no compensation at all — Python
truthiness treats the zero amount as absent, where the claim requires the
single-bound form "$0". -/
theorem clean_job_data_zero_amount_counterexample :
    (clean_job_data { min_amount := some 0 }).compensation = "" ∧
    "$" ++ commaFmt 0 = "$0" ∧ ("" : String) ≠ "$0" := by
  refine ⟨by decide, by decide, by decide⟩

/-- Concrete raw posting with both salary bounds (the spec's example). -/
def jobBothBounds : RawJob :=
  { min_amount := some 100000, max_amount := some 150000,
    currency := some "$", interval := some "yearly" }

/-- Concrete raw posting with only a minimum salary bound. -/
def jobMinOnly : RawJob := { min_amount := some 100000 }

/-- Witness for C4: the spec's two examples, via the amended theorem. -/
theorem clean_job_data_compensation_witness :
    ((clean_job_data jobBothBounds).compensation = compSynthSpec jobBothBounds) ∧
    compSynthSpec jobBothBounds = "$100,000 - $150,000 yearly" ∧
    ((clean_job_data jobMinOnly).compensation = compSynthSpec jobMinOnly) ∧
    compSynthSpec jobMinOnly = "$100,000" :=
  ⟨clean_job_data_compensation _ rfl, by decide,
   clean_job_data_compensation _ rfl, by decide⟩

/-! ### Per-source isolation within a task (C6) -/

/-- The records a site contributes to `jobs_data`: its fetched postings
tagged with the task's search term, nothing on failure. -/
def siteRecords (job_title : String)
    (fetch : String → Except String (List RawJob)) (site : String) :
    List RawJob :=
  match fetch site with
  | .ok recs => recs.map fun r => { r with search_term := some job_title }
  | .error _ => []

theorem taskRunGo_errors (job_title : String)
    (fetch : String → Except String (List RawJob)) :
    ∀ (sites : List String) (st : TaskState) (s : String),
      (taskRunGo job_title fetch sites st).errors s =
        match fetch s with
        | .error e => if s ∈ sites then some e else st.errors s
        | .ok _ => st.errors s := by
  intro sites
  induction sites with
  | nil =>
    intro st s
    cases hf : fetch s <;> simp [taskRunGo, hf]
  | cons site rest ih =>
    intro st s
    by_cases hs : s = site
    · subst hs
      cases hf : fetch s with
      | ok recs =>
        simp only [taskRunGo, hf]
        cases hrecs : recs.isEmpty <;>
          simp [hrecs, ih, hf]
      | error e =>
        simp [taskRunGo, hf, ih, updOpt]
    · cases hf : fetch site with
      | ok recs =>
        simp only [taskRunGo, hf]
        cases hg : fetch s with
        | ok recs2 =>
          cases hrecs : recs.isEmpty <;> simp [hrecs, ih, hg]
        | error e =>
          cases hrecs : recs.isEmpty <;>
            simp [hrecs, ih, hg, List.mem_cons, hs]
      | error e =>
        simp only [taskRunGo, hf]
        cases hg : fetch s with
        | ok recs2 => simp [ih, hg, updOpt, hs]
        | error e2 => simp [ih, hg, updOpt, hs, List.mem_cons]

theorem taskRunGo_counts (job_title : String)
    (fetch : String → Except String (List RawJob)) :
    ∀ (sites : List String) (st : TaskState) (s : String),
      (taskRunGo job_title fetch sites st).site_counts s =
        if s ∈ sites then
          some (match fetch s with
                | .ok recs => recs.length
                | .error _ => 0)
        else st.site_counts s := by
  intro sites
  induction sites with
  | nil => intro st s; simp [taskRunGo]
  | cons site rest ih =>
    intro st s
    by_cases hs : s = site
    · subst hs
      by_cases hmem : s ∈ rest
      · cases hf : fetch s with
        | ok recs =>
          simp only [taskRunGo, hf]
          cases hrecs : recs.isEmpty <;> simp [hrecs, ih, hmem, hf]
        | error e => simp [taskRunGo, hf, ih, hmem]
      · cases hf : fetch s with
        | ok recs =>
          simp only [taskRunGo, hf]
          cases hrecs : recs.isEmpty
          · simp [hrecs, ih, hmem, hf, updOpt]
          · have hnil : recs = [] := List.isEmpty_iff.mp hrecs
            subst hnil
            simp [ih, hmem, hf, updOpt]
        | error e => simp [taskRunGo, hf, ih, hmem, updOpt]
    · cases hf : fetch site with
      | ok recs =>
        simp only [taskRunGo, hf]
        cases hrecs : recs.isEmpty <;>
          simp [hrecs, ih, updOpt, hs, List.mem_cons]
      | error e =>
        simp only [taskRunGo, hf]
        simp [ih, updOpt, hs, List.mem_cons]

theorem taskRunGo_jobs (job_title : String)
    (fetch : String → Except String (List RawJob)) :
    ∀ (sites : List String) (st : TaskState),
      (taskRunGo job_title fetch sites st).jobs_data =
        st.jobs_data ++ sites.flatMap (siteRecords job_title fetch) := by
  intro sites
  induction sites with
  | nil => intro st; simp [taskRunGo]
  | cons site rest ih =>
    intro st
    cases hf : fetch site with
    | ok recs =>
      simp only [taskRunGo, hf]
      cases hrecs : recs.isEmpty
      · simp [hrecs, ih, siteRecords, hf, List.flatMap_cons, List.append_assoc]
      · have : recs = [] := List.isEmpty_iff.mp hrecs
        subst this
        simp [ih, siteRecords, hf]
    | error e =>
      simp only [taskRunGo, hf]
      simp [ih, siteRecords, hf]

/-- C6: within a task, a failing source is recorded in the per-source
error map and does not abort the task — every configured source gets a
recorded count (all are attempted), only failing sources appear in the
error map, and the aggregated postings are exactly the successful fetches
concatenated in the configured source order. -/
theorem task_source_isolation (job_title : String) (sites : List String)
    (fetch : String → Except String (List RawJob)) :
    (∀ s e, (jobScrapeTaskRun job_title sites fetch).errors s = some e ↔
        (s ∈ sites ∧ fetch s = .error e)) ∧
    (∀ s, s ∈ sites →
        (jobScrapeTaskRun job_title sites fetch).site_counts s ≠ none) ∧
    (jobScrapeTaskRun job_title sites fetch).jobs_data =
      sites.flatMap (siteRecords job_title fetch) := by
  refine ⟨fun s e => ?_, fun s hs => ?_, ?_⟩
  · rw [jobScrapeTaskRun, taskRunGo_errors]
    cases hf : fetch s with
    | ok recs => simp [hf]
    | error e2 =>
      by_cases hs : s ∈ sites <;> simp [hs, hf]
  · rw [jobScrapeTaskRun, taskRunGo_counts]
    simp [hs]
  · rw [jobScrapeTaskRun, taskRunGo_jobs]
    rfl

/-- A concrete fetch behavior: source "b" raises, the rest succeed. -/
def fetchDemo : String → Except String (List RawJob) :=
  fun site =>
    if site = "b" then .error "rate limited"
    else .ok [{ title := some site }]

/-- Witness for C6 on sources ["a", "b", "c"] with "b" failing: the error
map holds exactly "b", all three sources have recorded counts, and the
postings from "a" and "c" are both aggregated in order. -/
theorem task_source_isolation_witness :
    ((jobScrapeTaskRun "dev" ["a", "b", "c"] fetchDemo).errors "b" =
        some "rate limited" ↔
      ("b" ∈ ["a", "b", "c"] ∧ fetchDemo "b" = .error "rate limited")) ∧
    ((jobScrapeTaskRun "dev" ["a", "b", "c"] fetchDemo).site_counts "c" ≠ none) ∧
    (jobScrapeTaskRun "dev" ["a", "b", "c"] fetchDemo).jobs_data =
      [{ title := some "a", search_term := some "dev" },
       { title := some "c", search_term := some "dev" }] := by
  refine ⟨(task_source_isolation "dev" ["a", "b", "c"] fetchDemo).1 "b" "rate limited",
    (task_source_isolation "dev" ["a", "b", "c"] fetchDemo).2.1 "c" (by decide), ?_⟩
  rw [(task_source_isolation "dev" ["a", "b", "c"] fetchDemo).2.2]
  decide

/-! ### Pool fault isolation (C5) -/

/-- The completed task a future index contributes, if its execution
succeeded. -/
def okOutcome (outcomes : List (Except String TaskDone)) (i : Nat) :
    Option TaskDone :=
  match outcomes.get? i with
  | some (.ok t) => some t
  | _ => none

theorem poolCollect_spec (outcomes : List (Except String TaskDone)) :
    ∀ (order : List Nat) (completed : List TaskDone) (jobs : List RawJob),
      poolCollect outcomes order (completed, jobs) =
        (completed ++ order.filterMap (okOutcome outcomes),
         jobs ++ (order.filterMap (okOutcome outcomes)).flatMap
           (fun t => t.jobs_data)) := by
  intro order
  induction order with
  | nil => intro completed jobs; simp [poolCollect]
  | cons i rest ih =>
    intro completed jobs
    match hi : outcomes.get? i with
    | some (.ok t) =>
      have hi2 : outcomes[i]? = some (Except.ok t) := by
        rw [← List.get?_eq_getElem?]; exact hi
      simp only [poolCollect, hi]
      rw [ih]
      simp [okOutcome, hi2, List.filterMap_cons, List.append_assoc]
    | some (.error e) =>
      have hi2 : outcomes[i]? = some (Except.error e) := by
        rw [← List.get?_eq_getElem?]; exact hi
      simp only [poolCollect, hi]
      rw [ih]
      simp [okOutcome, hi2, List.filterMap_cons]
    | none =>
      have hi2 : outcomes[i]? = none := by
        rw [← List.get?_eq_getElem?]; exact hi
      simp only [poolCollect, hi]
      rw [ih]
      simp [okOutcome, hi2, List.filterMap_cons]

/-- C5: if every submitted future completes (every index below the task
count appears in the completion order), then the pool's collected output
contains the result of every task whose execution succeeded — with all of
its postings aggregated — regardless of any other task failing; the
completed list is exactly the successful outcomes in completion order. -/
theorem pool_fault_isolation (outcomes : List (Except String TaskDone))
    (order : List Nat)
    (hcover : ∀ i, i < outcomes.length → i ∈ order) :
    ((jobSpyScraperRun outcomes order).1 =
        order.filterMap (okOutcome outcomes)) ∧
    ∀ i t, outcomes.get? i = some (.ok t) →
      t ∈ (jobSpyScraperRun outcomes order).1 ∧
      ∀ r ∈ t.jobs_data, r ∈ (jobSpyScraperRun outcomes order).2 := by
  have hrun : jobSpyScraperRun outcomes order =
      (order.filterMap (okOutcome outcomes),
       (order.filterMap (okOutcome outcomes)).flatMap fun t => t.jobs_data) := by
    rw [jobSpyScraperRun, poolCollect_spec]
    simp
  refine ⟨by rw [hrun], fun i t ht => ?_⟩
  have hmem : t ∈ order.filterMap (okOutcome outcomes) := by
    refine List.mem_filterMap.mpr ⟨i, ?_, ?_⟩
    · exact hcover i (List.get?_eq_some.mp ht).1
    · have ht2 : outcomes[i]? = some (Except.ok t) := by
        rw [← List.get?_eq_getElem?]; exact ht
      simp [okOutcome, ht2]
  constructor
  · rw [hrun]; exact hmem
  · intro r hr
    rw [hrun]
    exact List.mem_flatMap.mpr ⟨t, hmem, hr⟩

/-- Five concrete task outcomes, the third of which throws. -/
def fiveOutcomes : List (Except String TaskDone) :=
  [.ok { job_title := "t1", jobs_data := [{ title := some "j1" }] },
   .ok { job_title := "t2", jobs_data := [{ title := some "j2" }] },
   .error "worker crash",
   .ok { job_title := "t4", jobs_data := [{ title := some "j4" }] },
   .ok { job_title := "t5", jobs_data := [] }]

/-- Witness for C5: with five submitted tasks and T3 throwing, under the
completion order [4,2,0,1,3] the other four task results are all present. -/
theorem pool_fault_isolation_witness :
    ((jobSpyScraperRun fiveOutcomes [4, 2, 0, 1, 3]).1 =
        [4, 2, 0, 1, 3].filterMap (okOutcome fiveOutcomes)) ∧
    ({ job_title := "t2", jobs_data := [{ title := some "j2" }] } : TaskDone) ∈
      (jobSpyScraperRun fiveOutcomes [4, 2, 0, 1, 3]).1 ∧
    ({ title := some "j2" } : RawJob) ∈
      (jobSpyScraperRun fiveOutcomes [4, 2, 0, 1, 3]).2 ∧
    (jobSpyScraperRun fiveOutcomes [4, 2, 0, 1, 3]).1.length = 4 := by
  have h := pool_fault_isolation fiveOutcomes [4, 2, 0, 1, 3] (by decide)
  have h2 := h.2 1 { job_title := "t2", jobs_data := [{ title := some "j2" }] } rfl
  exact ⟨h.1, h2.1, h2.2 _ (by decide), by decide⟩

/-! ### `filter_and_mark_jobs` as a map over the table (C7, C9) -/

/-- Pointwise effect of `set_job_ignore` on a table with unique ids. -/
def setFn (job_id v : Nat) (r : DbRow) : DbRow :=
  if r.id = job_id then { r with ignore := v } else r

theorem set_job_ignore_map_id (db : List DbRow) (job_id v : Nat) :
    (set_job_ignore db job_id v).map (fun r => r.id) = db.map fun r => r.id := by
  induction db with
  | nil => rfl
  | cons r rest ih =>
    by_cases h : r.id = job_id <;> simp [set_job_ignore, h, ih]

theorem set_job_ignore_eq_map (db : List DbRow) (job_id v : Nat)
    (hd : (db.map fun r => r.id).Nodup) :
    set_job_ignore db job_id v = db.map (setFn job_id v) := by
  induction db with
  | nil => rfl
  | cons r rest ih =>
    simp only [List.map_cons, List.nodup_cons] at hd
    by_cases h : r.id = job_id
    · simp only [set_job_ignore, if_pos h, List.map_cons, setFn, if_pos h]
      refine congrArg _ ?_
      rw [show rest.map (setFn job_id v) = rest.map id from
        List.map_congr_left fun x hx => ?_, List.map_id]
      have : x.id ≠ job_id := fun hxid =>
        hd.1 (h ▸ hxid ▸ List.mem_map_of_mem (fun r => r.id) hx)
      simp [setFn, this]
    · simp only [set_job_ignore, if_neg h, List.map_cons, setFn, if_neg h]
      exact congrArg _ (ih hd.2)

/-- Ids of the snapshot rows that fail the filter, in snapshot order. -/
def failingIds (cfg : FilterCfg) (snapshot : List DbRow) : List Nat :=
  (snapshot.filter fun j => !apply_filters (rowView j) cfg).map fun r => r.id

theorem markLoop_db (cfg : FilterCfg) :
    ∀ (snapshot db : List DbRow) (k i : Nat),
      (db.map fun r => r.id).Nodup →
      (markLoop cfg snapshot (db, k, i)).1 =
        db.map fun r =>
          if r.id ∈ failingIds cfg snapshot then { r with ignore := 1 } else r := by
  intro snapshot
  induction snapshot with
  | nil =>
    intro db k i _
    simp [markLoop, failingIds]
  | cons j rest ih =>
    intro db k i hd
    by_cases hp : apply_filters (rowView j) cfg
    · rw [show markLoop cfg (j :: rest) (db, k, i) =
            markLoop cfg rest (db, k + 1, i) from by
          simp only [markLoop, if_pos hp]]
      rw [ih db (k + 1) i hd]
      have : failingIds cfg (j :: rest) = failingIds cfg rest := by
        simp [failingIds, hp]
      rw [this]
    · rw [show markLoop cfg (j :: rest) (db, k, i) =
            markLoop cfg rest (set_job_ignore db j.id 1, k, i + 1) from by
          simp only [markLoop, if_neg hp]]
      have hset := set_job_ignore_eq_map db j.id 1 hd
      have hd2 : ((set_job_ignore db j.id 1).map fun r => r.id).Nodup := by
        rw [set_job_ignore_map_id]; exact hd
      rw [ih _ k (i + 1) hd2, hset, List.map_map]
      have hfail : failingIds cfg (j :: rest) = j.id :: failingIds cfg rest := by
        simp [failingIds, hp]
      rw [hfail]
      refine List.map_congr_left fun r _ => ?_
      by_cases hid : r.id = j.id
      · simp [setFn, hid, List.mem_cons]
      · by_cases hmem : r.id ∈ failingIds cfg rest <;>
          simp [setFn, hid, hmem, List.mem_cons]

/-- `filter_and_mark_jobs` over a table with unique ids is the pointwise
map that sets `ignore := 1` on rows that are addressed and fail the
filter, and leaves every other row untouched. -/
theorem filter_and_mark_map (cfg : FilterCfg) (job_ids : List Nat)
    (db : List DbRow) (hd : (db.map fun r => r.id).Nodup) :
    (filter_and_mark_jobs cfg job_ids db).1 =
      db.map fun r =>
        if r.id ∈ job_ids ∧ apply_filters (rowView r) cfg = false then
          { r with ignore := 1 }
        else r := by
  rw [filter_and_mark_jobs, markLoop_db cfg _ db 0 0 hd]
  refine List.map_congr_left fun r hr => ?_
  have hiff : r.id ∈ failingIds cfg (get_jobs_by_ids job_ids db) ↔
      (r.id ∈ job_ids ∧ apply_filters (rowView r) cfg = false) := by
    constructor
    · intro h
      obtain ⟨x, hx, hxid⟩ := List.mem_map.mp h
      have hx1 := List.mem_filter.mp hx
      have hx2 := List.mem_filter.mp hx1.1
      have hxeq : x = r := List.inj_on_of_nodup_map hd hx2.1 hr hxid
      subst hxeq
      exact ⟨by simpa using hx2.2, by simpa using hx1.2⟩
    · rintro ⟨hids, hfail⟩
      refine List.mem_map.mpr ⟨r, List.mem_filter.mpr ⟨?_, ?_⟩, rfl⟩
      · exact List.mem_filter.mpr ⟨hr, by simpa using hids⟩
      · simp [hfail]
  by_cases h : r.id ∈ failingIds cfg (get_jobs_by_ids job_ids db)
  · rw [if_pos h, if_pos (hiff.mp h)]
  · rw [if_neg h, if_neg (fun hc => h (hiff.mpr hc))]

/-- C9: `filter_and_mark_jobs` only ever sets the ignore flag to 1 on
addressed rows that fail the filter; every other row — in particular every
passing row, whatever its current ignore flag — is returned unchanged, so
a previously ignored row that now passes stays ignored. -/
theorem filter_and_mark_frame (cfg : FilterCfg) (job_ids : List Nat)
    (db : List DbRow) (hd : (db.map fun r => r.id).Nodup) :
    ((filter_and_mark_jobs cfg job_ids db).1 =
      db.map fun r =>
        if r.id ∈ job_ids ∧ apply_filters (rowView r) cfg = false then
          { r with ignore := 1 }
        else r) ∧
    ∀ r ∈ db, apply_filters (rowView r) cfg = true →
      r ∈ (filter_and_mark_jobs cfg job_ids db).1 := by
  refine ⟨filter_and_mark_map cfg job_ids db hd, fun r hr hpass => ?_⟩
  rw [filter_and_mark_map cfg job_ids db hd]
  refine List.mem_map.mpr ⟨r, hr, ?_⟩
  simp [hpass]

/-- C7: `filter_and_mark_jobs` is idempotent on the persisted table:
re-running it with the same config and addressed ids leaves the rows (in
particular every ignore flag) exactly as after the first run. -/
theorem filter_and_mark_idempotent (cfg : FilterCfg) (job_ids : List Nat)
    (db : List DbRow) (hd : (db.map fun r => r.id).Nodup) :
    (filter_and_mark_jobs cfg job_ids
        (filter_and_mark_jobs cfg job_ids db).1).1 =
      (filter_and_mark_jobs cfg job_ids db).1 := by
  have h1 := filter_and_mark_map cfg job_ids db hd
  have hid : ((filter_and_mark_jobs cfg job_ids db).1.map fun r => r.id) =
      db.map fun r => r.id := by
    rw [h1, List.map_map]
    refine List.map_congr_left fun r _ => ?_
    by_cases hc : r.id ∈ job_ids ∧ apply_filters (rowView r) cfg = false <;>
      simp [hc, Function.comp]
  have hd1 : (((filter_and_mark_jobs cfg job_ids db).1.map fun r => r.id)).Nodup := by
    rw [hid]; exact hd
  rw [filter_and_mark_map cfg job_ids _ hd1, h1, List.map_map]
  refine List.map_congr_left fun r _ => ?_
  simp only [Function.comp]
  by_cases hc : r.id ∈ job_ids ∧ apply_filters (rowView r) cfg = false
  · rw [if_pos hc, if_pos (show ({ r with ignore := 1 } : DbRow).id ∈ job_ids ∧
        apply_filters (rowView { r with ignore := 1 }) cfg = false from hc)]
  · rw [if_neg hc, if_neg hc]

/-- A concrete filter config: titles must mention "engineer". -/
def cfgMark : FilterCfg := { job_titles := [.s "engineer"] }

/-- A concrete three-row table: rows 1 and 3 pass the title filter (row 3
is already ignored), row 2 fails. -/
def dbMark : List DbRow :=
  [{ id := 1, title := "Senior Engineer" },
   { id := 2, title := "Chef" },
   { id := 3, title := "Engineer", ignore := 1 }]

/-- Witness for C9: on `dbMark`, only the failing row 2 is flipped to
ignored; the passing already-ignored row 3 is returned unchanged. -/
theorem filter_and_mark_frame_witness :
    ((filter_and_mark_jobs cfgMark [1, 2, 3] dbMark).1 =
      dbMark.map fun r =>
        if r.id ∈ [1, 2, 3] ∧ apply_filters (rowView r) cfgMark = false then
          { r with ignore := 1 }
        else r) ∧
    ({ id := 3, title := "Engineer", ignore := 1 } : DbRow) ∈
      (filter_and_mark_jobs cfgMark [1, 2, 3] dbMark).1 :=
  ⟨(filter_and_mark_frame cfgMark [1, 2, 3] dbMark (by decide)).1,
   (filter_and_mark_frame cfgMark [1, 2, 3] dbMark (by decide)).2
     { id := 3, title := "Engineer", ignore := 1 } (by decide) (by decide)⟩

/-- Witness for C7: running the mark pass twice on `dbMark` equals running
it once. -/
theorem filter_and_mark_idempotent_witness :
    (filter_and_mark_jobs cfgMark [1, 2, 3]
        (filter_and_mark_jobs cfgMark [1, 2, 3] dbMark).1).1 =
      (filter_and_mark_jobs cfgMark [1, 2, 3] dbMark).1 :=
  filter_and_mark_idempotent cfgMark [1, 2, 3] dbMark (by decide)

/-! ### Workflow orchestrator boundary (C3) -/

theorem storeLoop_success (env : WorkflowEnv) :
    ∀ (jobs : List DbJob) (ids : List Nat) (res : WorkflowResults)
      (e : String) (r : WorkflowResults),
      storeLoop env jobs ids res = .error (e, r) → r.success = res.success := by
  intro jobs
  induction jobs with
  | nil =>
    intro ids res e r h
    exact absurd h (by simp [storeLoop])
  | cons jd rest ih =>
    intro ids res e r h
    rw [storeLoop] at h
    split at h
    · injection h with h2
      injection h2 with he hr
      rw [hr]
    · exact ih _ _ _ _ h
    · split at h
      · exact ih _ _ _ _ h
      · have h3 := ih _ _ _ _ h
        exact h3

theorem storeLoop_ok_success (env : WorkflowEnv) :
    ∀ (jobs : List DbJob) (ids : List Nat) (res : WorkflowResults)
      (ids2 : List Nat) (r : WorkflowResults),
      storeLoop env jobs ids res = .ok (ids2, r) → r.success = res.success := by
  intro jobs
  induction jobs with
  | nil =>
    intro ids res ids2 r h
    rw [storeLoop] at h
    injection h with h2
    injection h2 with hi hr
    rw [hr]
  | cons jd rest ih =>
    intro ids res ids2 r h
    rw [storeLoop] at h
    split at h
    · exact absurd h (by simp)
    · exact ih _ _ _ _ h
    · split at h
      · exact ih _ _ _ _ h
      · have h3 := ih _ _ _ _ h
        exact h3

theorem workflowFilterStage_error (env : WorkflowEnv)
    (processed_jobs : List DbJob) (job_ids : List Nat)
    (res : WorkflowResults) (e : String) (r : WorkflowResults)
    (h : workflowFilterStage env processed_jobs job_ids res = .error (e, r)) :
    r = res := by
  rw [workflowFilterStage] at h
  split at h
  · split at h
    · injection h with h2
      injection h2 with he hr
      rw [hr]
    · exact absurd h (by simp)
  · split at h
    · injection h with h2
      injection h2 with he hr
      rw [hr]
    · exact absurd h (by simp)

theorem workflowStoreStage_error (env : WorkflowEnv)
    (processed_jobs : List DbJob) (res : WorkflowResults)
    (save_to_database : Bool) (e : String) (r : WorkflowResults)
    (h : workflowStoreStage env processed_jobs res save_to_database =
      .error (e, r)) :
    r.success = res.success := by
  rw [workflowStoreStage] at h
  split at h
  · split at h
    · injection h with h2
      injection h2 with he hr
      rw [← hr]
      exact storeLoop_success env _ _ _ _ _ (by assumption)
    · rename_i job_ids results2 heq
      have h3 := workflowFilterStage_error _ _ _ _ _ _ h
      rw [h3]
      have h4 := storeLoop_ok_success env _ _ _ _ _ heq
      exact h4
  · have h3 := workflowFilterStage_error _ _ _ _ _ _ h
    rw [h3]

theorem workflowScrapeStage_error (env : WorkflowEnv)
    (job_titles sites : List String) (res : WorkflowResults)
    (save_to_database : Bool) (e : String) (r : WorkflowResults)
    (h : workflowScrapeStage env job_titles sites res save_to_database =
      .error (e, r)) :
    r.success = res.success := by
  rw [workflowScrapeStage] at h
  split at h
  · injection h with h2
    injection h2 with he hr
    rw [hr]
  · split at h
    · exact absurd h (by simp)
    · have h3 := workflowStoreStage_error _ _ _ _ _ _ h
      exact h3

theorem workflowTry_error_success (env : WorkflowEnv)
    (job_titles0 sites0 : Option (List String)) (save_to_database : Bool)
    (e : String) (r : WorkflowResults)
    (h : workflowTry env job_titles0 sites0 save_to_database = .error (e, r)) :
    r.success = false := by
  rw [workflowTry.eq_def] at h
  split at h
  · injection h with h2
    injection h2 with he hr
    rw [← hr]
  · split at h
    · exact absurd h (by simp)
    · have h3 := workflowScrapeStage_error _ _ _ _ _ _ _ h
      exact h3

/-- C3: the orchestrator always returns a result object: any exception
escaping a stage of the try-block is caught at the boundary, its message
appended to the error list of the results accumulated so far, and the
returned result has `success = false`; and when configuration yields zero
search terms it returns early with `success = false` and the descriptive
error "No job titles provided" recorded, not a crash. -/
theorem workflow_never_raises (env : WorkflowEnv)
    (job_titles0 sites0 : Option (List String)) (save_to_database : Bool) :
    (∀ e r,
      workflowTry env job_titles0 sites0 save_to_database = .error (e, r) →
      execute_full_scraping_workflow env job_titles0 sites0 save_to_database =
          { r with errors := r.errors ++ [e] } ∧
        (execute_full_scraping_workflow env job_titles0 sites0
          save_to_database).success = false ∧
        e ∈ (execute_full_scraping_workflow env job_titles0 sites0
          save_to_database).errors) ∧
    ((job_titles0 = some [] ∨
        (job_titles0 = none ∧ env.load_jobs_config = .ok [])) →
      (execute_full_scraping_workflow env job_titles0 sites0
        save_to_database).success = false ∧
      "No job titles provided" ∈ (execute_full_scraping_workflow env
        job_titles0 sites0 save_to_database).errors) := by
  constructor
  · intro e r h
    have hexec : execute_full_scraping_workflow env job_titles0 sites0
        save_to_database = { r with errors := r.errors ++ [e] } := by
      rw [execute_full_scraping_workflow, h]
    refine ⟨hexec, ?_, ?_⟩
    · rw [hexec]
      have h3 := workflowTry_error_success env _ _ _ _ _ h
      exact h3
    · rw [hexec]
      simp
  · rintro (rfl | ⟨rfl, hload⟩)
    · simp [execute_full_scraping_workflow, workflowTry]
    · simp [execute_full_scraping_workflow, workflowTry, hload]

/-- A concrete environment whose scraper raises "boom". -/
def envBoom : WorkflowEnv :=
  { load_jobs_config := .ok ["dev"]
    scraper_run := fun _ _ => .error "boom"
    get_job_by_criteria := fun _ _ _ => .ok none
    add_job := fun _ => .ok 1
    filter_and_mark := fun _ => .ok (0, 0)
    load_filter_config := .ok {} }

/-- Witness for C3: a scraper exception is caught and reported with
`success = false`, and an empty title list short-circuits with the
descriptive error. -/
theorem workflow_never_raises_witness :
    (execute_full_scraping_workflow envBoom (some ["dev"]) none true).success
        = false ∧
    "boom" ∈ (execute_full_scraping_workflow envBoom (some ["dev"]) none
        true).errors ∧
    (execute_full_scraping_workflow envBoom (some []) none true).success
        = false ∧
    "No job titles provided" ∈ (execute_full_scraping_workflow envBoom
        (some []) none true).errors := by
  have h := (workflow_never_raises envBoom (some ["dev"]) none true).1 "boom"
    { success := false, steps := ["config"], errors := [] } rfl
  have h2 := (workflow_never_raises envBoom (some []) none true).2 (Or.inl rfl)
  exact ⟨h.2.1, h.2.2, h2.1, h2.2⟩
